import Mathlib

/-!
Verification of the Entropic v2 shared-memory reader
(src/frontend/native/src/shared_memory.cc) against its specification.

The C++ module maps a file-backed ring buffer read-only and exposes
readLatestFrame, getWriteIndex, getMetadata and close on a handle.
We embed the handle state and each operation as executable Lean
functions, modelling the mapped bytes as a list, machine `size_t`
arithmetic as natural-number arithmetic reduced modulo 2^64 wherever
the C code computes in `size_t`, and the thrown JavaScript exceptions
as explicit result constructors.

Each operation also returns the list of byte offsets it reads from the
mapping, so that memory-safety statements ("never reads outside the
mapped region") can be expressed about the access trace.

The C expression `(write_idx - 1) % ring_size` divides by zero when
`ring_size == 0`; that is undefined behavior in C++ and on the target
(x86-64 Linux) raises SIGFPE before any further memory access. We
model it as the explicit trap outcome `divByZero`.
-/

namespace Shm

/-- HEADER_SIZE from the source: the 64-byte header. -/
def HEADER_SIZE : Nat := 64

/-- Modulus of the 64-bit `size_t` arithmetic used for offsets. -/
def U64 : Nat := 18446744073709551616

/-- One byte of the mapping: entry `i` of the byte list, reduced to a
byte value (out-of-range indices read as 0; all in-bounds accesses are
proved to stay inside the mapping, so the default never matters). -/
def byteAt (mem : List Nat) (i : Nat) : Nat :=
  (mem.getD i 0) % 256

/-- Little-endian decoding of a `uint32_t` at byte offset `off`, as done
by the struct field reads and the `memcpy` of the length word. -/
def readU32 (mem : List Nat) (off : Nat) : Nat :=
  byteAt mem off
    + byteAt mem (off + 1) * 256
    + byteAt mem (off + 2) * 65536
    + byteAt mem (off + 3) * 16777216

/-- State of a SharedMemoryReader handle: `buf` is `some mem` when the
mapping is live (mirroring `buf_ != nullptr`), `fd` the descriptor,
`file_size` the mapped length recorded at open time. -/
structure Reader where
  buf : Option (List Nat)
  fd : Int
  file_size : Nat
  deriving DecidableEq

/-- Result of ReadLatestFrame: a copied frame, the JavaScript `null`
(absence), the two thrown errors, or the division-by-zero trap. -/
inductive ReadResult where
  | frame (bytes : List Nat)
  | noFrame
  | closedError
  | boundsError
  | divByZero
  deriving DecidableEq

/-- Byte offsets of the three header fields ReadLatestFrame reads, in
source order: write_index (0), ring_size (12), slot_size (8). -/
def headerAccesses : List Nat :=
  [0, 1, 2, 3, 12, 13, 14, 15, 8, 9, 10, 11]

/-- The ReadLatestFrame method of SharedMemoryReader, paired with the trace of byte
offsets it reads from the mapping. Transcribed line by line from the
source; every `size_t` computation is reduced modulo 2^64. -/
def readLatestFrameT (r : Reader) : ReadResult × List Nat :=
  match r.buf with
  | none => (ReadResult.closedError, [])
  | some mem =>
    let write_idx := readU32 mem 0
    let ring_size := readU32 mem 12
    let slot_size := readU32 mem 8
    if write_idx = 0 then
      (ReadResult.noFrame, headerAccesses)
    else if ring_size = 0 then
      -- the source computes (write_idx - 1) % ring_size unguarded:
      -- with ring_size == 0 this is a division by zero (UB; SIGFPE on
      -- the target), trapping before any slot access
      (ReadResult.divByZero, headerAccesses)
    else
      let slot := (write_idx - 1) % ring_size
      let offset := (HEADER_SIZE + slot * slot_size) % U64
      if (offset + 4) % U64 > r.file_size then
        (ReadResult.boundsError, headerAccesses)
      else
        let length := readU32 mem offset
        if length = 0 ∨ ((offset + 4) % U64 + length) % U64 > r.file_size then
          (ReadResult.noFrame, headerAccesses ++ [offset, offset + 1, offset + 2, offset + 3])
        else
          (ReadResult.frame ((List.range length).map fun i => byteAt mem (offset + 4 + i)),
           headerAccesses ++ [offset, offset + 1, offset + 2, offset + 3]
             ++ (List.range length).map fun i => offset + 4 + i)

/-- Result component of ReadLatestFrame. -/
def readLatestFrame (r : Reader) : ReadResult :=
  (readLatestFrameT r).1

/-- The GetWriteIndex method of SharedMemoryReader with its access trace: -1 when
closed, otherwise the write_index header field. -/
def getWriteIndexT (r : Reader) : Int × List Nat :=
  match r.buf with
  | none => (-1, [])
  | some mem => ((readU32 mem 0 : Int), [0, 1, 2, 3])

/-- Result component of GetWriteIndex. -/
def getWriteIndex (r : Reader) : Int :=
  (getWriteIndexT r).1

/-- The six header fields returned by GetMetadata. -/
structure Metadata where
  writeIndex : Nat
  frameCount : Nat
  slotSize : Nat
  ringSize : Nat
  width : Nat
  height : Nat
  deriving DecidableEq

/-- Result of GetMetadata: the header fields, or the thrown closed
error. -/
inductive MetaResult where
  | ok (m : Metadata)
  | closedError
  deriving DecidableEq

/-- The GetMetadata method of SharedMemoryReader with its access trace: reads the six
uint32 fields at offsets 0,4,8,12,16,20. -/
def getMetadataT (r : Reader) : MetaResult × List Nat :=
  match r.buf with
  | none => (MetaResult.closedError, [])
  | some mem =>
    (MetaResult.ok
      { writeIndex := readU32 mem 0
        frameCount := readU32 mem 4
        slotSize := readU32 mem 8
        ringSize := readU32 mem 12
        width := readU32 mem 16
        height := readU32 mem 20 },
     [0, 1, 2, 3, 4, 5, 6, 7, 8, 9, 10, 11, 12, 13, 14, 15, 16, 17, 18, 19, 20, 21, 22, 23])

/-- Result component of GetMetadata. -/
def getMetadata (r : Reader) : MetaResult :=
  (getMetadataT r).1

/-- The DoClose method of SharedMemoryReader: unmap if mapped, then close the
descriptor if it is nonnegative. -/
def doClose (r : Reader) : Reader :=
  let r1 : Reader := if r.buf.isSome then { r with buf := none } else r
  if r1.fd ≥ 0 then { r1 with fd := -1 } else r1

/-- The SharedMemoryReader constructor. `argOk` models the argument
type check, `openOk` whether the open syscall succeeds (returning descriptor
`fdv ≥ 0`), `statOk` whether fstat succeeds, `mmapOk` whether mmap
succeeds; `fileBytes` are the file bytes (st_size = length). Returns
the resulting handle state and whether an exception was thrown. -/
def mkReader (argOk openOk statOk mmapOk : Bool) (fdv : Nat) (fileBytes : List Nat) :
    Reader × Bool :=
  if ¬argOk then
    ({ buf := none, fd := -1, file_size := 0 }, true)
  else if ¬openOk then
    ({ buf := none, fd := -1, file_size := 0 }, true)
  else if ¬statOk ∨ fileBytes.length < HEADER_SIZE then
    ({ buf := none, fd := -1, file_size := 0 }, true)
  else if ¬mmapOk then
    ({ buf := none, fd := -1, file_size := fileBytes.length }, true)
  else
    ({ buf := some fileBytes, fd := (fdv : Int), file_size := fileBytes.length }, false)

/-! Concrete handle states used to instantiate the theorems. -/

/-- A well-formed 80-byte file: header with write_index 1, slot_size 8,
ring_size 2; slot 0 holds length 3 and payload bytes 10, 20, 30. -/
def testMem : List Nat :=
  [1, 0, 0, 0] ++ [0, 0, 0, 0] ++ [8, 0, 0, 0] ++ [2, 0, 0, 0]
    ++ List.replicate 48 0
    ++ [3, 0, 0, 0, 10, 20, 30, 0] ++ List.replicate 8 0

/-- An open handle on testMem. -/
def testReader : Reader :=
  { buf := some testMem, fd := 3, file_size := 80 }

/-- A 64-byte file whose header claims write_index 1, slot_size 0,
ring_size 1: the slot offset is 64, so the length word does not fit. -/
def memTrunc : List Nat :=
  [1, 0, 0, 0] ++ List.replicate 8 0 ++ [1, 0, 0, 0] ++ List.replicate 48 0

/-- An open handle on memTrunc. -/
def readerTrunc : Reader :=
  { buf := some memTrunc, fd := 3, file_size := 64 }

/-- An 80-byte file like testMem but whose slot 0 length word is 0. -/
def memEmptySlot : List Nat :=
  [1, 0, 0, 0] ++ [0, 0, 0, 0] ++ [8, 0, 0, 0] ++ [2, 0, 0, 0]
    ++ List.replicate 48 0 ++ List.replicate 16 0

/-- An open handle on memEmptySlot. -/
def readerEmptySlot : Reader :=
  { buf := some memEmptySlot, fd := 3, file_size := 80 }

/-- A 64-byte file with write_index 0 and garbage in other fields
(frame_count 9, slot_size 7, ring_size 0). -/
def memFresh : List Nat :=
  [0, 0, 0, 0] ++ [9, 0, 0, 0] ++ [7, 0, 0, 0] ++ [0, 0, 0, 0]
    ++ List.replicate 48 0

/-- An open handle on memFresh. -/
def readerFresh : Reader :=
  { buf := some memFresh, fd := 3, file_size := 64 }

/-- A 64-byte file with write_index 1 and ring_size 0: the malformed
header that the specification says must yield BoundsError. -/
def memRingZero : List Nat :=
  [1, 0, 0, 0] ++ List.replicate 60 0

/-- An open handle on memRingZero. -/
def readerRingZero : Reader :=
  { buf := some memRingZero, fd := 3, file_size := 64 }

/-! Arithmetic helper lemmas. -/

/-- A decoded byte is below 256. -/
lemma byteAt_lt (mem : List Nat) (i : Nat) : byteAt mem i < 256 :=
  Nat.mod_lt _ (by omega)

/-- A decoded uint32 field is below 2^32. -/
lemma readU32_lt (mem : List Nat) (off : Nat) : readU32 mem off < 4294967296 := by
  unfold readU32
  have h0 := byteAt_lt mem off
  have h1 := byteAt_lt mem (off + 1)
  have h2 := byteAt_lt mem (off + 2)
  have h3 := byteAt_lt mem (off + 3)
  omega

/-- The whole offset computation fits in 64 bits: with slot at most
2^32 - 2, slot_size below 2^32 and length below 2^32, the value
HEADER_SIZE + slot * slot_size + 4 + length is below 2^64. -/
lemma offset_no_overflow (slot s L : Nat)
    (hslot : slot ≤ 4294967294) (hs : s < 4294967296) (hL : L < 4294967296) :
    HEADER_SIZE + slot * s + 4 + L < U64 := by
  have h : slot * s ≤ 4294967294 * 4294967295 :=
    Nat.mul_le_mul hslot (by omega)
  unfold HEADER_SIZE U64
  omega

/-- DoClose always yields the canonical closed state: mapping gone and
a nonnegative descriptor replaced by -1. -/
lemma doClose_eq (r : Reader) :
    doClose r = { buf := none, fd := if r.fd ≥ 0 then -1 else r.fd,
                  file_size := r.file_size } := by
  rcases r with ⟨b, fd, fs⟩
  cases b <;> simp [doClose] <;> split_ifs <;> rfl

/-- Evaluation of ReadLatestFrame on an open handle whose header has
nonzero write_index and ring_size: every size_t reduction modulo 2^64
collapses to exact arithmetic (the offsets fit in 64 bits), leaving the
three checks of the source in exact natural-number arithmetic. -/
lemma readLatestFrameT_open (mem : List Nat) (fd : Int) (fs off L : Nat)
    (hk : readU32 mem 0 ≠ 0) (hR : readU32 mem 12 ≠ 0)
    (hoff : off = HEADER_SIZE + ((readU32 mem 0 - 1) % readU32 mem 12) * readU32 mem 8)
    (hL : L = readU32 mem off) :
    readLatestFrameT { buf := some mem, fd := fd, file_size := fs } =
      if off + 4 > fs then
        (ReadResult.boundsError, headerAccesses)
      else if L = 0 ∨ off + 4 + L > fs then
        (ReadResult.noFrame, headerAccesses ++ [off, off + 1, off + 2, off + 3])
      else
        (ReadResult.frame ((List.range L).map fun i => byteAt mem (off + 4 + i)),
         headerAccesses ++ [off, off + 1, off + 2, off + 3]
           ++ (List.range L).map fun i => off + 4 + i) := by
  have hR0 : 0 < readU32 mem 12 := Nat.pos_of_ne_zero hR
  have hslot : (readU32 mem 0 - 1) % readU32 mem 12 ≤ 4294967294 := by
    have h1 : (readU32 mem 0 - 1) % readU32 mem 12 < readU32 mem 12 :=
      Nat.mod_lt _ hR0
    have h2 := readU32_lt mem 12
    omega
  have hS := readU32_lt mem 8
  have hLlt : L < 4294967296 := hL ▸ readU32_lt mem off
  have hbig : off + 4 + L < U64 := by
    rw [hoff]
    exact offset_no_overflow _ _ _ hslot hS hLlt
  have m1 : (HEADER_SIZE + ((readU32 mem 0 - 1) % readU32 mem 12) * readU32 mem 8) % U64
      = off := by
    rw [← hoff]
    exact Nat.mod_eq_of_lt (by omega)
  have m2 : (off + 4) % U64 = off + 4 := Nat.mod_eq_of_lt (by omega)
  have m3 : (off + 4 + L) % U64 = off + 4 + L := Nat.mod_eq_of_lt (by omega)
  simp only [readLatestFrameT, hk, hR, if_neg, ite_false, m1, m2, ← hL, m3]

/-! Claim theorems. -/

/-- C1 (code_bug evidence): on an open handle whose header has
write_index 1 and ring_size 0, ReadLatestFrame reaches the unguarded
modulo and divides by zero instead of failing with BoundsError as the
specification requires. -/
theorem readLatestFrame_ringZero_traps :
    readLatestFrame readerRingZero = ReadResult.divByZero ∧
    ReadResult.divByZero ≠ ReadResult.boundsError := by
  decide

/-- C6: on an open handle whose header has write_index 0,
ReadLatestFrame returns null (absence), whatever the other header
fields and slot contents are. -/
theorem readLatestFrame_writeIndex_zero (r : Reader) (mem : List Nat)
    (hb : r.buf = some mem) (h0 : readU32 mem 0 = 0) :
    readLatestFrame r = ReadResult.noFrame := by
  rcases r with ⟨b, fd, fs⟩
  simp only at hb
  subst hb
  simp [readLatestFrame, readLatestFrameT, h0]

/-- C6 witness: a header with write_index 0 and nonzero garbage in the
other fields yields null. -/
theorem readLatestFrame_writeIndex_zero_inst :
    readLatestFrame readerFresh = ReadResult.noFrame :=
  readLatestFrame_writeIndex_zero readerFresh memFresh rfl (by decide)

/-- C8: Close is idempotent, and on a closed handle ReadLatestFrame and
GetMetadata throw the closed error while GetWriteIndex returns -1. -/
theorem doClose_idempotent_closed_ops (r : Reader) :
    doClose (doClose r) = doClose r ∧
    readLatestFrame (doClose r) = ReadResult.closedError ∧
    getMetadata (doClose r) = MetaResult.closedError ∧
    getWriteIndex (doClose r) = -1 := by
  rw [doClose_eq r, doClose_eq]
  refine ⟨?_, by rfl, by rfl, by rfl⟩
  simp only [Reader.mk.injEq, true_and, and_true]
  split_ifs <;> omega

/-- C8 witness: closing the concrete open testReader twice equals
closing it once. -/
theorem doClose_idempotent_closed_ops_inst :
    doClose (doClose testReader) = doClose testReader :=
  (doClose_idempotent_closed_ops testReader).1

/-- C10: whenever the constructor throws (bad argument, open failure,
stat failure or short file, or mmap failure), the handle is left in the
closed state: frame reads and metadata reads throw the closed error,
GetWriteIndex returns -1, and no mapping or descriptor is held. -/
theorem mkReader_failure_closed (a o s m : Bool) (fdv : Nat) (fileBytes : List Nat)
    (h : (mkReader a o s m fdv fileBytes).2 = true) :
    readLatestFrame (mkReader a o s m fdv fileBytes).1 = ReadResult.closedError ∧
    getMetadata (mkReader a o s m fdv fileBytes).1 = MetaResult.closedError ∧
    getWriteIndex (mkReader a o s m fdv fileBytes).1 = -1 ∧
    (mkReader a o s m fdv fileBytes).1.buf = none ∧
    (mkReader a o s m fdv fileBytes).1.fd = -1 := by
  unfold mkReader at h ⊢
  split_ifs at h ⊢ <;>
    simp_all [readLatestFrame, readLatestFrameT, getMetadata, getMetadataT,
      getWriteIndex, getWriteIndexT]

/-- C10 witness: a failed open leaves a handle on which ReadLatestFrame
throws the closed error. -/
theorem mkReader_failure_closed_inst :
    readLatestFrame (mkReader true false true true 3 []).1 = ReadResult.closedError :=
  (mkReader_failure_closed true false true true 3 [] (by decide)).1

/-- C4: on an open handle with nonzero write_index and ring_size, if
the slot offset leaves no room for the 4-byte length word inside the
mapped region, ReadLatestFrame throws BoundsError (it does not return
null). -/
theorem readLatestFrame_oob_boundsError (r : Reader) (mem : List Nat) (off : Nat)
    (hb : r.buf = some mem)
    (hk : readU32 mem 0 ≠ 0) (hR : readU32 mem 12 ≠ 0)
    (hoff : off = HEADER_SIZE + ((readU32 mem 0 - 1) % readU32 mem 12) * readU32 mem 8)
    (hgt : off + 4 > r.file_size) :
    readLatestFrame r = ReadResult.boundsError ∧
    ReadResult.boundsError ≠ ReadResult.noFrame := by
  rcases r with ⟨b, fd, fs⟩
  simp only at hb hgt
  subst hb
  rw [readLatestFrame, readLatestFrameT_open mem fd fs off (readU32 mem off) hk hR hoff rfl]
  simp [hgt]

/-- C4 witness: a 64-byte file claiming write_index 1, slot_size 0,
ring_size 1 puts the length word at offset 64, past the mapping, and
ReadLatestFrame throws BoundsError. -/
theorem readLatestFrame_oob_boundsError_inst :
    readLatestFrame readerTrunc = ReadResult.boundsError :=
  (readLatestFrame_oob_boundsError readerTrunc memTrunc 64 rfl (by decide) (by decide)
    (by decide) (by decide)).1

/-- C5: on an open handle with nonzero write_index and ring_size whose
length word is readable, a zero length or a declared payload running
past the mapped region makes ReadLatestFrame return null rather than
throw. -/
theorem readLatestFrame_badLength_null (r : Reader) (mem : List Nat) (off : Nat)
    (hb : r.buf = some mem)
    (hk : readU32 mem 0 ≠ 0) (hR : readU32 mem 12 ≠ 0)
    (hoff : off = HEADER_SIZE + ((readU32 mem 0 - 1) % readU32 mem 12) * readU32 mem 8)
    (hle : off + 4 ≤ r.file_size)
    (hbad : readU32 mem off = 0 ∨ off + 4 + readU32 mem off > r.file_size) :
    readLatestFrame r = ReadResult.noFrame ∧
    ReadResult.noFrame ≠ ReadResult.boundsError := by
  rcases r with ⟨b, fd, fs⟩
  simp only at hb hle hbad
  subst hb
  rw [readLatestFrame, readLatestFrameT_open mem fd fs off (readU32 mem off) hk hR hoff rfl]
  have hngt : ¬(off + 4 > fs) := by omega
  simp [hngt, hbad]

/-- C5 witness: a slot whose length word is 0 yields null. -/
theorem readLatestFrame_badLength_null_inst :
    readLatestFrame readerEmptySlot = ReadResult.noFrame :=
  (readLatestFrame_badLength_null readerEmptySlot memEmptySlot 64 rfl (by decide)
    (by decide) (by decide) (by decide) (by decide)).1

/-- C7: when the chosen slot holds a nonzero length L whose payload fits
inside the mapped region, ReadLatestFrame returns exactly the L bytes
stored at offset + 4, as a fresh list built by copying them out of the
mapping. -/
theorem readLatestFrame_copies_bytes (r : Reader) (mem : List Nat) (off L : Nat)
    (hb : r.buf = some mem)
    (hk : readU32 mem 0 ≠ 0) (hR : readU32 mem 12 ≠ 0)
    (hoff : off = HEADER_SIZE + ((readU32 mem 0 - 1) % readU32 mem 12) * readU32 mem 8)
    (hL : L = readU32 mem off)
    (hle : off + 4 ≤ r.file_size) (hL0 : L ≠ 0)
    (hfit : off + 4 + L ≤ r.file_size) :
    readLatestFrame r
      = ReadResult.frame ((List.range L).map fun i => byteAt mem (off + 4 + i)) := by
  rcases r with ⟨b, fd, fs⟩
  simp only at hb hle hfit
  subst hb
  rw [readLatestFrame, readLatestFrameT_open mem fd fs off L hk hR hoff hL]
  have hngt : ¬(off + 4 > fs) := by omega
  have hnbad : ¬(L = 0 ∨ off + 4 + L > fs) := by omega
  simp [hngt, hnbad]

/-- C7 witness: the slot of testMem holds length 3 and bytes 10, 20,
30, and ReadLatestFrame returns exactly those three bytes. -/
theorem readLatestFrame_copies_bytes_inst :
    readLatestFrame testReader = ReadResult.frame [10, 20, 30] := by
  have h := readLatestFrame_copies_bytes testReader testMem 64 3 rfl (by decide)
    (by decide) (by decide) (by decide) (by decide) (by decide) (by decide)
  rw [h]
  decide

/-- C9: the offset arithmetic of ReadLatestFrame never wraps in 64
bits: with ring_size nonzero and any length below 2^32, each size_t
reduction modulo 2^64 is the identity and the full sum
HEADER_SIZE + slot * slot_size + 4 + length stays below 2^64, so the
two bounds comparisons agree with exact integer arithmetic. -/
theorem offset_arithmetic_exact (mem : List Nat) (L : Nat)
    (hR : readU32 mem 12 ≠ 0) (hL : L < 4294967296) :
    (HEADER_SIZE + ((readU32 mem 0 - 1) % readU32 mem 12) * readU32 mem 8) % U64
        = HEADER_SIZE + ((readU32 mem 0 - 1) % readU32 mem 12) * readU32 mem 8 ∧
    ((HEADER_SIZE + ((readU32 mem 0 - 1) % readU32 mem 12) * readU32 mem 8) % U64 + 4) % U64
        = HEADER_SIZE + ((readU32 mem 0 - 1) % readU32 mem 12) * readU32 mem 8 + 4 ∧
    (((HEADER_SIZE + ((readU32 mem 0 - 1) % readU32 mem 12) * readU32 mem 8) % U64 + 4) % U64
          + L) % U64
        = HEADER_SIZE + ((readU32 mem 0 - 1) % readU32 mem 12) * readU32 mem 8 + 4 + L ∧
    HEADER_SIZE + ((readU32 mem 0 - 1) % readU32 mem 12) * readU32 mem 8 + 4 + L < U64 := by
  have hR0 : 0 < readU32 mem 12 := Nat.pos_of_ne_zero hR
  have hslot : (readU32 mem 0 - 1) % readU32 mem 12 ≤ 4294967294 := by
    have h1 : (readU32 mem 0 - 1) % readU32 mem 12 < readU32 mem 12 :=
      Nat.mod_lt _ hR0
    have h2 := readU32_lt mem 12
    omega
  have hS := readU32_lt mem 8
  have hbig : HEADER_SIZE + ((readU32 mem 0 - 1) % readU32 mem 12) * readU32 mem 8 + 4 + L
      < U64 := offset_no_overflow _ _ _ hslot hS hL
  have m1 : (HEADER_SIZE + ((readU32 mem 0 - 1) % readU32 mem 12) * readU32 mem 8) % U64
      = HEADER_SIZE + ((readU32 mem 0 - 1) % readU32 mem 12) * readU32 mem 8 :=
    Nat.mod_eq_of_lt (by omega)
  rw [m1]
  have m2 : (HEADER_SIZE + ((readU32 mem 0 - 1) % readU32 mem 12) * readU32 mem 8 + 4) % U64
      = HEADER_SIZE + ((readU32 mem 0 - 1) % readU32 mem 12) * readU32 mem 8 + 4 :=
    Nat.mod_eq_of_lt (by omega)
  rw [m2]
  exact ⟨rfl, rfl, Nat.mod_eq_of_lt (by omega), hbig⟩

/-- C9 witness: the arithmetic identities at the testMem header with
length 3. -/
theorem offset_arithmetic_exact_inst :
    HEADER_SIZE + ((readU32 testMem 0 - 1) % readU32 testMem 12) * readU32 testMem 8 + 4 + 3
      < U64 :=
  (offset_arithmetic_exact testMem 3 (by decide) (by decide)).2.2.2

/-- C2: on an open handle whose recorded mapped length is at least the
64-byte header (the constructor guarantees this), every byte offset
read by ReadLatestFrame, GetWriteIndex or GetMetadata lies inside
[0, mapped_length), whatever the header claims. The ring_size == 0
header traps on the division before any slot access, so even then all
performed reads are the in-bounds header reads. -/
theorem reads_in_bounds (r : Reader) (mem : List Nat)
    (hb : r.buf = some mem) (hfs : HEADER_SIZE ≤ r.file_size) :
    ∀ o, o ∈ (readLatestFrameT r).2 ++ (getWriteIndexT r).2 ++ (getMetadataT r).2 →
      o < r.file_size := by
  rcases r with ⟨b, fd, fs⟩
  simp only at hb hfs
  subst hb
  have hH : HEADER_SIZE = 64 := rfl
  have hfs64 : 64 ≤ fs := by omega
  intro o ho
  show o < fs
  rw [List.mem_append, List.mem_append] at ho
  rcases ho with (h1 | h2) | h3
  · by_cases hk : readU32 mem 0 = 0
    · simp [readLatestFrameT, hk, headerAccesses] at h1
      omega
    · by_cases hR : readU32 mem 12 = 0
      · simp [readLatestFrameT, hk, hR, headerAccesses] at h1
        omega
      · rw [readLatestFrameT_open mem fd fs
          (HEADER_SIZE + ((readU32 mem 0 - 1) % readU32 mem 12) * readU32 mem 8)
          (readU32 mem (HEADER_SIZE + ((readU32 mem 0 - 1) % readU32 mem 12) * readU32 mem 8))
          hk hR rfl rfl] at h1
        split_ifs at h1 with hc1 hc2
        · simp [headerAccesses] at h1
          omega
        · simp [headerAccesses] at h1
          omega
        · rw [List.mem_append] at h1
          rcases h1 with h1 | h1
          · simp [headerAccesses] at h1
            omega
          · rw [List.mem_map] at h1
            obtain ⟨i, hi, hio⟩ := h1
            rw [List.mem_range] at hi
            omega
  · simp [getWriteIndexT] at h2
    omega
  · simp [getMetadataT] at h3
    omega

/-- C2 witness: on the testMem handle the trace contains offset 64 and
it is below the mapped length 80. -/
theorem reads_in_bounds_inst : (64 : Nat) < testReader.file_size :=
  reads_in_bounds testReader testMem rfl (by decide) 64 (by decide)

/-- C3: on an open handle with write_index k nonzero and ring_size R
nonzero whose length word fits, the slot read by ReadLatestFrame is
exactly slot (k-1) mod R: its reads beyond the header start with the
four length-word bytes at HEADER_SIZE + ((k-1) mod R) * slot_size and
any further reads lie at or past offset + 4 (inside that same slot
payload). Moreover reducing k to its representative within one
generation, k2 = ((k-1) mod R) + 1, selects the same slot. -/
theorem readLatestFrame_slot_choice (r : Reader) (mem : List Nat) (off : Nat)
    (hb : r.buf = some mem)
    (hk : readU32 mem 0 ≠ 0) (hR : readU32 mem 12 ≠ 0)
    (hoff : off = HEADER_SIZE + ((readU32 mem 0 - 1) % readU32 mem 12) * readU32 mem 8)
    (hle : off + 4 ≤ r.file_size) :
    (∃ rest, (readLatestFrameT r).2
        = headerAccesses ++ [off, off + 1, off + 2, off + 3] ++ rest
        ∧ ∀ a ∈ rest, off + 4 ≤ a) ∧
    ((readU32 mem 0 - 1) % readU32 mem 12 + 1 - 1) % readU32 mem 12
      = (readU32 mem 0 - 1) % readU32 mem 12 := by
  rcases r with ⟨b, fd, fs⟩
  simp only at hb hle
  subst hb
  constructor
  · rw [readLatestFrameT_open mem fd fs off (readU32 mem off) hk hR hoff rfl]
    have hngt : ¬(off + 4 > fs) := by omega
    rw [if_neg hngt]
    by_cases hbad : readU32 mem off = 0 ∨ off + 4 + readU32 mem off > fs
    · rw [if_pos hbad]
      exact ⟨[], by simp, by simp⟩
    · rw [if_neg hbad]
      refine ⟨(List.range (readU32 mem off)).map fun i => off + 4 + i, rfl, ?_⟩
      intro a ha
      simp only [List.mem_map, List.mem_range] at ha
      obtain ⟨i, hi, rfl⟩ := ha
      omega
  · have h1 : (readU32 mem 0 - 1) % readU32 mem 12 < readU32 mem 12 :=
      Nat.mod_lt _ (Nat.pos_of_ne_zero hR)
    rw [Nat.add_sub_cancel]
    exact Nat.mod_eq_of_lt h1

/-- C3 witness: the wraparound identity instantiated at the testMem
header, all hypotheses discharged concretely. -/
theorem readLatestFrame_slot_choice_inst :
    ((readU32 testMem 0 - 1) % readU32 testMem 12 + 1 - 1) % readU32 testMem 12
      = (readU32 testMem 0 - 1) % readU32 testMem 12 :=
  (readLatestFrame_slot_choice testReader testMem 64 rfl (by decide) (by decide)
    (by decide) (by decide)).2

end Shm
